import Mathlib

/-!
Shallow embedding of the bgrep core (src/args.rs, src/grep.rs, src/main.rs).

* Patterns are modelled as literal byte strings (lists of `Nat`); `findIter`
  models `Regex.find_iter` on such a pattern — leftmost non-overlapping
  matches, an empty match advancing one byte — `is_match` models
  `Regex.is_match`, and `splitPieces` models `Regex.split`.
* The formatters `grep_filename`, `grep_bytes` and `grep_offset` return the
  list of emitted output lines together with the `matched` boolean, mirroring
  the functions of the same names in src/grep.rs.  The optional file-name
  label prefix controlled by `print_filename` decorates lines and is not part
  of the payload modelled here.
* `run_format` models the formatting part of `run_file` (trailing-newline trim
  and dispatch on the output mode); `ScanBuffer` models its buffer handling;
  `resolveSource` and `displayName` model its stdin-sentinel dispatch.
* `run` models the per-file result fold of `grep::run`, and `exit_status`
  models the status mapping in `main`.
-/

/-- The output mode (src/args.rs, `Output`). -/
inductive Output where
  | FileName
  | Bytes
  | Offset
deriving DecidableEq, Repr

/-- The option flags (src/args.rs, `Options`). -/
structure Options where
  inverse : Bool := false
  case_insensitive : Bool := false
  trim_ending_newline : Bool := false
  non_matching : Bool := false
  print_filename : Bool := false
  output : Output := Output.FileName
deriving DecidableEq, Repr

/-- One emitted line of primary output: a file name, a raw byte span, or a
hex-rendered byte offset. -/
inductive Item where
  | path : Item
  | bytes : List Nat → Item
  | offset : Nat → Item
deriving DecidableEq, Repr

/-- Does the literal pattern `p` occur in `b` at position `i`? -/
def matchAt (p b : List Nat) (i : Nat) : Bool :=
  decide ((b.drop i).take p.length = p)

/-- Models `Regex.find_iter` for a literal pattern, from position `i`:
leftmost non-overlapping matches, an empty match advancing one byte.  The
fuel argument only bounds the recursion; `b.length + 1` always suffices. -/
def findIterFrom (p b : List Nat) : Nat → Nat → List (Nat × Nat)
  | _, 0 => []
  | i, fuel + 1 =>
    if b.length < i then []
    else if matchAt p b i then
      (i, i + p.length) :: findIterFrom p b (max (i + p.length) (i + 1)) fuel
    else
      findIterFrom p b (i + 1) fuel

/-- All matches of the literal pattern `p` in `b`. -/
def findIter (p b : List Nat) : List (Nat × Nat) :=
  findIterFrom p b 0 (b.length + 1)

/-- Models `Regex.is_match`: does `p` match anywhere in `b`? -/
def is_match (p b : List Nat) : Bool :=
  (List.range (b.length + 1)).any fun i => matchAt p b i

/-- The hole-searching scan of `grep_filename`'s inverse branch
(src/grep.rs lines 44-57): walk the matches keeping the previous match end
`e`; stop with `true` at the first match starting strictly after `e`.
Returns the flag together with the final value of `e`. -/
def holeScan : List (Nat × Nat) → Nat → Bool × Nat
  | [], e => (false, e)
  | m :: rest, e => if e < m.1 then (true, m.2) else holeScan rest m.2

/-- src/grep.rs `grep_filename`: emit the path iff matched; the matched flag
is the match (or inverse-hole) existence xor-ed with `non_matching`. -/
def grep_filename (opts : Options) (p b : List Nat) : List Item × Bool :=
  if opts.inverse then
    let scan := holeScan (findIter p b) 0
    let matched := (scan.1 || decide (scan.2 < b.length)).xor opts.non_matching
    (if matched then [Item.path] else [], matched)
  else
    let matched := (is_match p b).xor opts.non_matching
    (if matched then [Item.path] else [], matched)

/-- Models `Regex.split` applied to `b`, given the match list and the end of
the previous match: the byte spans outside the matches, in order.  There is
always one (possibly empty) piece before each match and one after the last. -/
def splitPieces (b : List Nat) : List (Nat × Nat) → Nat → List (List Nat)
  | [], e => [b.drop e]
  | m :: rest, e => (b.drop e).take (m.1 - e) :: splitPieces b rest m.2

/-- src/grep.rs `grep_bytes`: forward mode emits every match's bytes and is
matched iff some match exists; inverse mode emits every non-empty split piece,
but sets `matched` only when the FIRST split piece is non-empty (the loop over
the remaining pieces emits without touching `matched`). -/
def grep_bytes (opts : Options) (p b : List Nat) : List Item × Bool :=
  if opts.inverse then
    let pieces := splitPieces b (findIter p b) 0
    let out := (pieces.filter fun s => !s.isEmpty).map Item.bytes
    let matched :=
      match pieces with
      | [] => false
      | s :: _ => !s.isEmpty
    (out, matched)
  else
    let ms := findIter p b
    (ms.map fun m => Item.bytes ((b.drop m.1).take (m.2 - m.1)), !ms.isEmpty)

/-- The loop of `grep_offset`'s inverse branch (src/grep.rs lines 170-179):
emit the previous end `e` before every match starting strictly after it;
return the emitted offsets together with the final value of `e`. -/
def offsetHoles : List (Nat × Nat) → Nat → List Nat × Nat
  | [], e => ([], e)
  | m :: rest, e =>
    let tail := offsetHoles rest m.2
    (if e < m.1 then e :: tail.1 else tail.1, tail.2)

/-- src/grep.rs `grep_offset`: forward mode emits every match's start offset;
inverse mode emits every hole's start offset, with the trailing hole emitted
iff the final end is strictly below the buffer length. -/
def grep_offset (opts : Options) (p b : List Nat) : List Item × Bool :=
  let ms := findIter p b
  if opts.inverse then
    let h := offsetHoles ms 0
    let out := h.1 ++ (if h.2 < b.length then [h.2] else [])
    (out.map Item.offset, !out.isEmpty)
  else
    (ms.map fun m => Item.offset m.1, !ms.isEmpty)

/-- The trailing-newline trim of `run_file` (src/grep.rs lines 251-253). -/
def trimBuffer (opts : Options) (b : List Nat) : List Nat :=
  if opts.trim_ending_newline && b.getLast? == some 10 then b.dropLast else b

/-- The formatting part of `run_file` (src/grep.rs lines 250-260): trim the
trailing newline if requested, then dispatch on the output mode. -/
def run_format (opts : Options) (p b : List Nat) : List Item × Bool :=
  let v := trimBuffer opts b
  match opts.output with
  | Output.FileName => grep_filename opts p v
  | Output.Bytes => grep_bytes opts p v
  | Output.Offset => grep_offset opts p v

/-- src/args.rs: the path spelling that denotes standard input. -/
def STDIN : String := "-"

/-- Where `run_file` actually reads from. -/
inductive Source where
  | stdin
  | file (path : String)
deriving DecidableEq, Repr

/-- src/grep.rs lines 219-242: a path equal to the sentinel reads standard
input; any other path opens the named file. -/
def resolveSource (path : String) : Source :=
  if path = STDIN then Source.stdin else Source.file path

/-- The display name used in output and diagnostics for an input path. -/
def displayName (path : String) : String :=
  if path = STDIN then "<stdin>" else path

/-- The scan buffer, abstracted to its length and capacity. -/
structure ScanBuffer where
  len : Nat
  cap : Nat
deriving DecidableEq, Repr

/-- `Vec::clear`: drop the contents, keep the capacity. -/
def clearBuf (b : ScanBuffer) : ScanBuffer :=
  { len := 0, cap := b.cap }

/-- `Vec::reserve n`: grow the capacity to at least `len + n`. -/
def reserveBuf (b : ScanBuffer) (n : Nat) : ScanBuffer :=
  { len := b.len, cap := max b.cap (b.len + n) }

/-- `read_to_end`: append `size` bytes, growing the capacity as needed. -/
def readToEnd (b : ScanBuffer) (size : Nat) : ScanBuffer :=
  { len := b.len + size, cap := max b.cap (b.len + size) }

/-- The buffer handling of `run_file` (src/grep.rs lines 217-241) for one
input: clear, reserve the metadata size hint (`saturating_sub` of the cleared
length; `hint = 0` models stdin or unavailable metadata), then read the
input's `size` bytes. -/
def run_file_buffer (b : ScanBuffer) (hint size : Nat) : ScanBuffer :=
  let b1 := clearBuf b
  let b2 := reserveBuf b1 (hint - b1.len)
  readToEnd b2 size

/-- The buffer state after a whole run over inputs given as
(size hint, actual size) pairs. -/
def runBuffers (inputs : List (Nat × Nat)) (b : ScanBuffer) : ScanBuffer :=
  inputs.foldl (fun acc i => run_file_buffer acc i.1 i.2) b

/-- The error kinds distinguished by `main` (src/main.rs lines 45-51). -/
inductive ErrorKind where
  | NotFound
  | PermissionDenied
  | Interrupted
  | InvalidInput
  | BrokenPipe
  | Other
deriving DecidableEq, Repr

/-- The per-file outcome of `run_file`: an error kind, or whether the file
matched. -/
abbrev FileResult := Except ErrorKind Bool

/-- The per-file loop of `grep::run` (src/grep.rs lines 300-315), given each
file's `run_file` outcome: `Ok true` updates the accumulator with
`Result::map` (so an already recorded error is kept); a `BrokenPipe` error
maps the accumulator to a match and stops; any other error overwrites the
accumulator.  Returns the final accumulator and how many inputs were
consumed. -/
def runLoop : List FileResult → FileResult → FileResult × Nat
  | [], acc => (acc, 0)
  | r :: rest, acc =>
    match r with
    | Except.ok false => let t := runLoop rest acc; (t.1, t.2 + 1)
    | Except.ok true => let t := runLoop rest (acc.map fun _ => true); (t.1, t.2 + 1)
    | Except.error e =>
      if e = ErrorKind.BrokenPipe then (acc.map fun _ => true, 1)
      else let t := runLoop rest (Except.error e); (t.1, t.2 + 1)

/-- The overall result of `grep::run` over the per-file outcomes. -/
def run (results : List FileResult) : FileResult :=
  (runLoop results (Except.ok false)).1

/-- How many inputs the loop of `grep::run` consumes before stopping. -/
def runProcessed (results : List FileResult) : Nat :=
  (runLoop results (Except.ok false)).2

/-- `grep::run` including pattern compilation: an invalid pattern aborts the
run with `InvalidInput` before any file is read (src/grep.rs lines 273-278). -/
def runModel (patternValid : Bool) (results : List FileResult) : FileResult :=
  if patternValid then run results else Except.error ErrorKind.InvalidInput

/-- The process exit status mapping of `main` (src/main.rs lines 41-53). -/
def exit_status : FileResult → Nat
  | Except.ok true => 0
  | Except.ok false => 1
  | Except.error ErrorKind.InvalidInput => 3
  | Except.error ErrorKind.NotFound => 4
  | Except.error ErrorKind.PermissionDenied => 5
  | Except.error ErrorKind.Interrupted => 130
  | Except.error _ => 2

/-- Spec-side definition (spec §8): full coverage — the matches tile the
buffer with no gaps, starting at offset `e` (initially 0) and ending exactly
at the buffer length. -/
def fullCoverageSpec : List (Nat × Nat) → Nat → Nat → Bool
  | [], e, len => decide (e = len)
  | m :: rest, e, len => decide (m.1 = e) && fullCoverageSpec rest m.2 len

/-- Spec-side definition (spec §4.3, offset mode inverse): the start offsets
of the holes — `e` before every match starting strictly after `e`, and the
trailing `e` when it is strictly below the buffer length. -/
def holeStartsSpec : List (Nat × Nat) → Nat → Nat → List Nat
  | [], e, len => if e < len then [e] else []
  | m :: rest, e, len => (if e < m.1 then [e] else []) ++ holeStartsSpec rest m.2 len

/-- Well-formedness of a match list as produced by `find_iter`, relative to a
start position `e` and the buffer length: matches are ordered, non-overlapping
and within bounds. -/
def spansWF : List (Nat × Nat) → Nat → Nat → Bool
  | [], _, _ => true
  | m :: rest, e, len =>
    decide (e ≤ m.1) && decide (m.1 ≤ m.2) && decide (m.2 ≤ len) && spansWF rest m.2 len

/-- Whether a result list contains no `BrokenPipe` error. -/
def noBrokenPipe : List FileResult → Bool
  | [] => true
  | Except.error ErrorKind.BrokenPipe :: _ => false
  | _ :: rest => noBrokenPipe rest

/-- Whether every per-file outcome in the list is error-free. -/
def allOk : List FileResult → Bool
  | [] => true
  | Except.ok _ :: rest => allOk rest
  | Except.error _ :: _ => false

/-- Whether some per-file outcome in the list is a match. -/
def hasMatch : List FileResult → Bool
  | [] => false
  | Except.ok true :: _ => true
  | _ :: rest => hasMatch rest

/-- The accumulator value reached by `runLoop` when no `BrokenPipe` occurs
(no early stop). -/
def foldAcc : List FileResult → FileResult → FileResult
  | [], acc => acc
  | Except.ok false :: rest, acc => foldAcc rest acc
  | Except.ok true :: rest, acc => foldAcc rest (acc.map fun _ => true)
  | Except.error e :: rest, _ => foldAcc rest (Except.error e)

/-! ## Helper lemmas -/

theorem matchAt_bound (p b : List Nat) (i : Nat) (h : matchAt p b i = true)
    (hi : i ≤ b.length) : i + p.length ≤ b.length := by
  have h' := of_decide_eq_true h
  have hl := congrArg List.length h'
  simp [List.length_take, List.length_drop] at hl
  omega

theorem spansWF_mono (ms : List (Nat × Nat)) (e e' len : Nat)
    (h : spansWF ms e' len = true) (he : e ≤ e') : spansWF ms e len = true := by
  cases ms with
  | nil => rfl
  | cons m rest =>
    simp only [spansWF, Bool.and_eq_true, decide_eq_true_eq] at h ⊢
    exact ⟨⟨⟨Nat.le_trans he h.1.1.1, h.1.1.2⟩, h.1.2⟩, h.2⟩

theorem findIterFrom_wf (p b : List Nat) :
    ∀ fuel i, spansWF (findIterFrom p b i fuel) i b.length = true := by
  intro fuel
  induction fuel with
  | zero => intro i; rfl
  | succ fuel ih =>
    intro i
    rw [findIterFrom]
    by_cases hgt : b.length < i
    · simp [hgt, spansWF]
    · have hi : i ≤ b.length := Nat.le_of_not_lt hgt
      by_cases hm : matchAt p b i
      · have hb := matchAt_bound p b i hm hi
        have hrest := spansWF_mono _ (i + p.length) (max (i + p.length) (i + 1))
          b.length (ih (max (i + p.length) (i + 1))) (Nat.le_max_left _ _)
        simp [hgt, hm, spansWF, hb, hrest]
      · have hrest := spansWF_mono _ i (i + 1) b.length (ih (i + 1)) (Nat.le_succ i)
        simp [hgt, hm, hrest]

theorem findIter_wf (p b : List Nat) : spansWF (findIter p b) 0 b.length = true :=
  findIterFrom_wf p b (b.length + 1) 0

theorem holeScan_fullCoverage (ms : List (Nat × Nat)) :
    ∀ e len, spansWF ms e len = true → e ≤ len →
    ((holeScan ms e).1 || decide ((holeScan ms e).2 < len))
      = !fullCoverageSpec ms e len := by
  induction ms with
  | nil =>
    intro e len _ he
    simp only [holeScan, fullCoverageSpec, Bool.false_or]
    rw [← decide_not, decide_eq_decide]
    omega
  | cons m rest ih =>
    intro e len hwf he
    simp only [spansWF, Bool.and_eq_true, decide_eq_true_eq] at hwf
    obtain ⟨⟨⟨h1, h2⟩, h3⟩, h4⟩ := hwf
    by_cases hlt : e < m.1
    · have hne : ¬ (m.1 = e) := by omega
      simp [holeScan, fullCoverageSpec, hlt, hne]
    · have heq : m.1 = e := by omega
      have hfc : fullCoverageSpec (m :: rest) e len = fullCoverageSpec rest m.2 len := by
        simp [fullCoverageSpec, heq]
      have hhs : holeScan (m :: rest) e = holeScan rest m.2 := by
        simp [holeScan, hlt]
      rw [hfc, hhs]
      exact ih m.2 len h4 h3

theorem is_match_iff (p b : List Nat) :
    is_match p b = true ↔ ∃ i, i ≤ b.length ∧ matchAt p b i = true := by
  simp [is_match, List.any_eq_true, List.mem_range, Nat.lt_succ_iff]

theorem offsetHoles_spec (ms : List (Nat × Nat)) :
    ∀ e len,
    (offsetHoles ms e).1
      ++ (if (offsetHoles ms e).2 < len then [(offsetHoles ms e).2] else [])
      = holeStartsSpec ms e len := by
  induction ms with
  | nil => intro e len; simp [offsetHoles, holeStartsSpec]
  | cons m rest ih =>
    intro e len
    simp only [offsetHoles, holeStartsSpec]
    by_cases hlt : e < m.1
    · simp [hlt, ih m.2 len]
    · simp [hlt, ih m.2 len]

theorem is_match_nil (p : List Nat) (h : is_match p [] = false) : p ≠ [] := by
  intro hp
  subst hp
  simp [is_match, matchAt] at h

theorem findIter_nil (p : List Nat) (h : p ≠ []) : findIter p [] = [] := by
  have hm : matchAt p [] 0 = false := by
    simp only [matchAt, List.drop_nil, List.take_nil, decide_eq_false_iff_not]
    exact fun hh => h hh.symm
  simp [findIter, findIterFrom, hm]

deriving instance DecidableEq for Except

theorem runLoop_allOk (rs : List FileResult) :
    ∀ b : Bool, allOk rs = true →
    runLoop rs (Except.ok b) = (Except.ok (b || hasMatch rs), rs.length) := by
  induction rs with
  | nil => intro b _; simp [runLoop, hasMatch]
  | cons r rest ih =>
    intro b h
    cases r with
    | ok m =>
      have h' : allOk rest = true := by cases m <;> simpa [allOk] using h
      cases m <;> simp [runLoop, hasMatch, Except.map, ih _ h']
    | error e => simp [allOk] at h

theorem runLoop_noBP (rs : List FileResult) :
    ∀ acc, noBrokenPipe rs = true → runLoop rs acc = (foldAcc rs acc, rs.length) := by
  induction rs with
  | nil => intro acc _; rfl
  | cons r rest ih =>
    intro acc h
    cases r with
    | ok m =>
      have h' : noBrokenPipe rest = true := by cases m <;> simpa [noBrokenPipe] using h
      cases m <;> simp [runLoop, foldAcc, ih _ h']
    | error e =>
      cases e <;> simp_all [noBrokenPipe, runLoop, foldAcc, ih]

theorem runLoop_append_BP (pre : List FileResult) :
    ∀ (post : List FileResult) (acc : FileResult), noBrokenPipe pre = true →
    runLoop (pre ++ Except.error ErrorKind.BrokenPipe :: post) acc
      = ((foldAcc pre acc).map fun _ => true, pre.length + 1) := by
  induction pre with
  | nil => intro post acc _; simp [runLoop, foldAcc]
  | cons r pre' ih =>
    intro post acc h
    cases r with
    | ok m =>
      have h' : noBrokenPipe pre' = true := by cases m <;> simpa [noBrokenPipe] using h
      cases m <;> simp [runLoop, foldAcc, ih post _ h']
    | error e =>
      cases e <;> simp_all [noBrokenPipe, runLoop, foldAcc]

/-! ## Claim theorems -/

/-- C1 (amended): a match makes the run outcome `Ok true` only when no
non-fatal error was recorded: over error-free per-file results the outcome is
a match iff some file matched, but with a first file `NotFound` and a second
file matching, the recorded error is kept (`Result::map` leaves an `Err`
untouched) and the final status is 4, not 0. -/
theorem run_error_precedence :
    (∀ results, allOk results = true →
      (run results = Except.ok true ↔ hasMatch results = true)) ∧
    run [Except.error ErrorKind.NotFound, Except.ok true]
      = Except.error ErrorKind.NotFound ∧
    exit_status (run [Except.error ErrorKind.NotFound, Except.ok true]) = 4 := by
  refine ⟨?_, by decide, by decide⟩
  intro results h
  rw [run, runLoop_allOk results false h]
  simp

/-- C1 (counterexample): with the first input `NotFound` and the second a
match, the run outcome is the error, not success — the exit status is 4,
contradicting the claimed status 0. -/
theorem run_notfound_then_match_status :
    run [Except.error ErrorKind.NotFound, Except.ok true] ≠ Except.ok true ∧
    exit_status (run [Except.error ErrorKind.NotFound, Except.ok true]) = 4 := by
  decide

/-- C1 (witness): over error-free results a match does yield success. -/
theorem run_error_precedence_witness :
    run [Except.ok false, Except.ok true] = Except.ok true :=
  (run_error_precedence.1 [Except.ok false, Except.ok true] rfl).mpr rfl

/-- C2 (failing input): inverse byte-emission with pattern `"ab"` on buffer
`"abx"` emits the non-empty remainder `"x"`, yet returns `matched = false`,
because only the first split piece (here empty) can set the flag.  This
contradicts the claim that `matched` is true iff at least one emission
occurred, and contradicts grep.rs's own run-loop comment that no match means
no output. -/
theorem grep_bytes_inverse_emission_without_match :
    grep_bytes { inverse := true } [97, 98] [97, 98, 120]
      = ([Item.bytes [120]], false) := by
  decide

/-- C3: in filename-report mode, the forward matched flag is match existence
(`is_match`, equivalent to a match at some position) xor-ed with
`non_matching`, and the inverse matched flag is the negation of full coverage
(matches tiling the buffer gap-free from offset 0) xor-ed with
`non_matching`. -/
theorem grep_filename_spec (opts : Options) (p b : List Nat) :
    (opts.inverse = false →
      (grep_filename opts p b).2 = (is_match p b).xor opts.non_matching ∧
      (is_match p b = true ↔ ∃ i, i ≤ b.length ∧ matchAt p b i = true)) ∧
    (opts.inverse = true →
      (grep_filename opts p b).2
        = (!fullCoverageSpec (findIter p b) 0 b.length).xor opts.non_matching) := by
  constructor
  · intro h
    exact ⟨by simp [grep_filename, h], is_match_iff p b⟩
  · intro h
    have hh := holeScan_fullCoverage (findIter p b) 0 b.length
      (findIter_wf p b) (Nat.zero_le _)
    simp [grep_filename, h, ← hh]

/-- C3 (witness): the inverse characterization at pattern `"a"`, buffer
`"aa"`. -/
theorem grep_filename_spec_witness :
    (grep_filename { inverse := true } [97] [97, 97]).2
      = (!fullCoverageSpec (findIter [97] [97, 97]) 0 ([97, 97] : List Nat).length).xor
          ({ inverse := true : Options }).non_matching :=
  (grep_filename_spec { inverse := true } [97] [97, 97]).2 rfl

/-- C4: the exit status mapping — match 0, no match 1, invalid pattern or
argument parsing 3, `NotFound` 4, `PermissionDenied` 5, interrupt 130, any
other error 2. -/
theorem exit_status_spec :
    exit_status (Except.ok true) = 0 ∧
    exit_status (Except.ok false) = 1 ∧
    (∀ results, exit_status (runModel false results) = 3) ∧
    exit_status (Except.error ErrorKind.InvalidInput) = 3 ∧
    exit_status (Except.error ErrorKind.NotFound) = 4 ∧
    exit_status (Except.error ErrorKind.PermissionDenied) = 5 ∧
    exit_status (Except.error ErrorKind.Interrupted) = 130 ∧
    exit_status (Except.error ErrorKind.BrokenPipe) = 2 ∧
    exit_status (Except.error ErrorKind.Other) = 2 :=
  ⟨rfl, rfl, fun _ => rfl, rfl, rfl, rfl, rfl, rfl, rfl⟩

/-- C5 (counterexample): a `BrokenPipe` after a recorded `NotFound` does NOT
make the run successful-with-match — the earlier error is conserved
(`Result::map` leaves an `Err` untouched). -/
theorem run_broken_pipe_conserves_error :
    run [Except.error ErrorKind.NotFound, Except.error ErrorKind.BrokenPipe]
      = Except.error ErrorKind.NotFound ∧
    run [Except.error ErrorKind.NotFound, Except.error ErrorKind.BrokenPipe]
      ≠ Except.ok true := by
  decide

/-- C5 (amended): without a `BrokenPipe` the loop consumes every input (so
`BrokenPipe` is the only early-termination condition); on the first
`BrokenPipe` it halts immediately — consuming exactly the preceding inputs
plus the failing one — and maps the accumulated outcome to a match, which
yields success only when no error was previously recorded. -/
theorem run_broken_pipe_halt :
    (∀ results, noBrokenPipe results = true →
      runProcessed results = results.length) ∧
    (∀ pre post, noBrokenPipe pre = true →
      runProcessed (pre ++ Except.error ErrorKind.BrokenPipe :: post)
        = pre.length + 1 ∧
      run (pre ++ Except.error ErrorKind.BrokenPipe :: post)
        = (run pre).map fun _ => true) := by
  constructor
  · intro results h
    rw [runProcessed, runLoop_noBP results _ h]
  · intro pre post h
    constructor
    · rw [runProcessed, runLoop_append_BP pre post _ h]
    · rw [run, runLoop_append_BP pre post _ h, run, runLoop_noBP pre _ h]

/-- C5 (witness): a match, then `BrokenPipe`, then another input — the loop
stops after two inputs and the run is a success. -/
theorem run_broken_pipe_halt_witness :
    runProcessed [Except.ok true, Except.error ErrorKind.BrokenPipe,
      Except.ok false] = 2 ∧
    run [Except.ok true, Except.error ErrorKind.BrokenPipe, Except.ok false]
      = Except.ok true := by
  have h := run_broken_pipe_halt.2 [Except.ok true] [Except.ok false] rfl
  simp only [List.cons_append, List.nil_append, List.length_cons,
    List.length_nil] at h
  exact ⟨by simp [h.1], by rw [h.2]; rfl⟩

/-- C6: inverse offset mode emits exactly the hole start offsets described by
the spec's walk (emit `end` before every match starting past it, plus the
trailing `end` iff it is below the buffer length); and on pattern `"ab"`,
buffer `"xxabyyab"`, forward offset mode outputs offsets 2 then 6, inverse
offset mode outputs 0 then 4 with no trailing emission. -/
theorem grep_offset_spec :
    (∀ p b : List Nat,
      (grep_offset { inverse := true, output := Output.Offset } p b).1
        = (holeStartsSpec (findIter p b) 0 b.length).map Item.offset) ∧
    findIter [97, 98] [120, 120, 97, 98, 121, 121, 97, 98] = [(2, 4), (6, 8)] ∧
    grep_offset { output := Output.Offset } [97, 98]
        [120, 120, 97, 98, 121, 121, 97, 98]
      = ([Item.offset 2, Item.offset 6], true) ∧
    grep_offset { inverse := true, output := Output.Offset } [97, 98]
        [120, 120, 97, 98, 121, 121, 97, 98]
      = ([Item.offset 0, Item.offset 4], true) := by
  refine ⟨?_, by decide, by decide, by decide⟩
  intro p b
  simp [grep_offset, ← offsetHoles_spec]

/-- C7 (counterexample): the empty pattern matches the empty buffer, so
forward byte-emission on an empty buffer emits a line and reports
`matched = true`; likewise filename mode with `non_matching` set emits the
path on an empty buffer. -/
theorem forward_empty_buffer_empty_pattern :
    (grep_bytes {} [] []).1 ≠ [] ∧ (grep_bytes {} [] []).2 = true ∧
    (grep_filename { non_matching := true } [97] []).1 ≠ [] ∧
    (grep_filename { non_matching := true } [97] []).2 = true := by
  decide

/-- C7 (amended): for every pattern with no match in the empty buffer, and
with `non_matching` unset, every forward mode emits nothing on the empty
buffer and reports `matched = false`. -/
theorem forward_empty_buffer_no_match (opts : Options) (p : List Nat)
    (hinv : opts.inverse = false) (hnm : opts.non_matching = false)
    (h : is_match p [] = false) :
    grep_filename opts p [] = ([], false) ∧
    grep_bytes opts p [] = ([], false) ∧
    grep_offset opts p [] = ([], false) := by
  have hf : findIter p [] = [] := findIter_nil p (is_match_nil p h)
  refine ⟨?_, ?_, ?_⟩ <;>
    simp [grep_filename, grep_bytes, grep_offset, hinv, hnm, h, hf]

/-- C7 (witness): pattern `"a"` on the empty buffer. -/
theorem forward_empty_buffer_no_match_witness :
    grep_filename {} [97] [] = ([], false) ∧
    grep_bytes {} [97] [] = ([], false) ∧
    grep_offset {} [97] [] = ([], false) :=
  forward_empty_buffer_no_match {} [97] rfl rfl (by decide)

/-- C8: with `trim_ending_newline` set and a final newline byte, the
effective scan length drops by exactly one; a pattern matching only the byte
before the newline is still reported, and a pattern matching only the
trailing newline is not. -/
theorem trim_ending_newline_spec :
    (∀ (opts : Options) (b : List Nat), opts.trim_ending_newline = true →
      b.getLast? = some 10 → b.length = (trimBuffer opts b).length + 1) ∧
    (run_format { trim_ending_newline := true } [113] [113, 10]).2 = true ∧
    (run_format { trim_ending_newline := true } [10] [113, 10]).2 = false := by
  refine ⟨?_, by decide, by decide⟩
  intro opts b ht hl
  have hb : b ≠ [] := by intro hh; subst hh; simp at hl
  have hpos : 0 < b.length := List.length_pos.mpr hb
  have hcond : (opts.trim_ending_newline && b.getLast? == some 10) = true := by
    simp [ht, hl]
  rw [trimBuffer, if_pos hcond, List.length_dropLast]
  omega

/-- C8 (witness): the buffer `"\n"` trims to length 0. -/
theorem trim_ending_newline_spec_witness :
    ([10] : List Nat).length
      = (trimBuffer { trim_ending_newline := true } [10]).length + 1 :=
  trim_ending_newline_spec.1 { trim_ending_newline := true } [10] rfl rfl

/-- C9: the scan buffer is logically emptied (length zero, capacity kept)
before each input; its capacity never decreases over a step or over a whole
run; with a size hint it grows to at least the hinted input length; and after
reading, the length is the input size and never exceeds the capacity. -/
theorem scan_buffer_invariants :
    (∀ b : ScanBuffer, (clearBuf b).len = 0 ∧ (clearBuf b).cap = b.cap) ∧
    (∀ (b : ScanBuffer) (hint size : Nat),
      b.cap ≤ (run_file_buffer b hint size).cap) ∧
    (∀ (inputs : List (Nat × Nat)) (b : ScanBuffer),
      b.cap ≤ (runBuffers inputs b).cap) ∧
    (∀ (b : ScanBuffer) (size : Nat), size ≤ (run_file_buffer b size size).cap) ∧
    (∀ (b : ScanBuffer) (hint size : Nat),
      (run_file_buffer b hint size).len = size ∧
      (run_file_buffer b hint size).len ≤ (run_file_buffer b hint size).cap) := by
  refine ⟨fun b => ⟨rfl, rfl⟩, ?_, ?_, ?_, ?_⟩
  · intro b hint size
    simp [run_file_buffer, clearBuf, reserveBuf, readToEnd]
  · intro inputs
    induction inputs with
    | nil => intro b; simp [runBuffers]
    | cons i rest ih =>
      intro b
      have h1 : b.cap ≤ (run_file_buffer b i.1 i.2).cap := by
        simp [run_file_buffer, clearBuf, reserveBuf, readToEnd]
      exact Nat.le_trans h1 (ih (run_file_buffer b i.1 i.2))
  · intro b size
    simp [run_file_buffer, clearBuf, reserveBuf, readToEnd]
  · intro b hint size
    simp [run_file_buffer, clearBuf, reserveBuf, readToEnd]

/-- C10: the locator `"-"` always resolves to standard input with display
name `"<stdin>"`, and any other path resolves to the file of that path — so
a real file named `"-"` can never be scanned by path. -/
theorem stdin_sentinel_spec :
    resolveSource STDIN = Source.stdin ∧
    displayName STDIN = "<stdin>" ∧
    (∀ path : String, path ≠ STDIN →
      resolveSource path = Source.file path ∧ displayName path = path) := by
  refine ⟨by simp [resolveSource], by simp [displayName], ?_⟩
  intro path h
  exact ⟨by simp [resolveSource, h], by simp [displayName, h]⟩

/-- C10 (witness): a concrete non-sentinel path resolves to a file. -/
theorem stdin_sentinel_spec_witness :
    resolveSource "a" = Source.file "a" ∧ displayName "a" = "a" :=
  stdin_sentinel_spec.2.2 "a" (by decide)
